import Mathlib

/-!
Verification development for the RAG-CHATBOT document-intelligence pipeline.

Text-processing code is embedded over `List Char` (Python `str` restricted to
its ASCII fragment, which is all the relevant regular expressions and string
methods distinguish); stateful components are embedded as explicit state
passing; external collaborators (the language-model service, the FAISS
vector engine, the embedding service) are parameters of the embedded
functions; Python exceptions become `Except`/`Option` results.
-/

namespace RagChatbot

/-- Python `\s` / `str.strip()` whitespace, ASCII fragment. -/
def isWS (c : Char) : Bool :=
  c = ' ' || c = '\t' || c = '\n' || c = '\r' || c = '\x0b' || c = '\x0c'

/-- The character class matched by `\n` (used by the regex `\n+`). -/
def isNL (c : Char) : Bool := c = '\n'

/-- Python `[0-9]` / `\d`, ASCII fragment. -/
def isDigitCh (c : Char) : Bool := '0' ≤ c && c ≤ '9'

/-- Python `[A-Z]` under `re.IGNORECASE`. -/
def isAlphaAZ (c : Char) : Bool := ('A' ≤ c && c ≤ 'Z') || ('a' ≤ c && c ≤ 'z')

/-- Case-insensitive character comparison (`re.IGNORECASE` on a literal). -/
def lowEq (a b : Char) : Bool := a.toLower = b.toLower

/-- Python slice `s[a:b]` (with the usual clamping). -/
def slice (s : List Char) (a b : Nat) : List Char := (s.take b).drop a

/-- Python `str.rstrip()`: drop the trailing whitespace run. -/
def rstrip : List Char → List Char
  | [] => []
  | c :: cs =>
    let r := rstrip cs
    if r = [] && isWS c then [] else c :: r

/-- Python `str.strip()`: drop leading and trailing whitespace. -/
def pyStrip (l : List Char) : List Char := rstrip (l.dropWhile isWS)

/-- Boolean list-prefix test. -/
def isPrefixL : List Char → List Char → Bool
  | [], _ => true
  | _ :: _, [] => false
  | a :: as, b :: bs => a = b && isPrefixL as bs

/-- Python `pat in s` substring containment. -/
def containsSub (p : List Char) : List Char → Bool
  | [] => isPrefixL p []
  | c :: t => isPrefixL p (c :: t) || containsSub p t

/-- `re.sub(X+, r, l)` for a character class `X`: replace every maximal run
of characters satisfying `p` by the single character `r`. The flag records
whether the scanner is inside a run already replaced. -/
def subRunsGo (p : Char → Bool) (r : Char) : Bool → List Char → List Char
  | _, [] => []
  | inRun, c :: cs =>
    if p c then
      if inRun then subRunsGo p r true cs
      else r :: subRunsGo p r true cs
    else c :: subRunsGo p r false cs

def subRuns (p : Char → Bool) (r : Char) (l : List Char) : List Char :=
  subRunsGo p r false l

/-- Python `str.split()` (split on whitespace runs, no empty tokens):
worker with an accumulator holding the current token reversed. -/
def splitGo (acc : List Char) : List Char → List (List Char)
  | [] => if acc = [] then [] else [acc.reverse]
  | c :: cs =>
    if isWS c then
      if acc = [] then splitGo [] cs else acc.reverse :: splitGo [] cs
    else splitGo (c :: acc) cs

def pySplit (l : List Char) : List (List Char) := splitGo [] l

/-- Python `' '.join(ts)`. -/
def joinSp : List (List Char) → List Char
  | [] => []
  | [t] => t
  | t :: u :: ts => t ++ ' ' :: joinSp (u :: ts)

end RagChatbot

namespace DocumentProcessor

open RagChatbot

/-- `DocumentProcessor.clean_text` (src/document_processor/processor.py):
`if not text: return ""` then `' '.join(word for word in text.split() if word)`. -/
def clean_text (text : List Char) : List Char :=
  if text = [] then []
  else joinSp ((pySplit text).filter (fun w => !w.isEmpty))

end DocumentProcessor

namespace IngestionPipeline

open RagChatbot

/-- `IngestionPipeline.clean_text` (src/ingestion_pipeline/ingest.py):
`text.strip()`, then `re.sub(r'\n+', '\n', _)`, then `re.sub(r'\s+', ' ', _)`,
guarded by `if not text: return ""`. -/
def clean_text (text : List Char) : List Char :=
  if text = [] then []
  else subRuns isWS ' ' (subRuns isNL '\n' (pyStrip text))

/-- Attempt of the regex `ITEM\s+\d+[A-Z]?\.\s+.*` (re.IGNORECASE) at the head
of `s`: the literal `ITEM` case-insensitively, one or more whitespace, one or
more digits, an optional letter (case-insensitive `[A-Z]?`, with its regex
backtracking resolved: the letter is taken only when a dot follows), a dot,
one or more whitespace, then `.*` greedily up to (not including) the next
newline.  Returns the match length. -/
def matchItemAt (s : List Char) : Option Nat :=
  match s with
  | c1 :: c2 :: c3 :: c4 :: rest =>
    if RagChatbot.lowEq c1 'i' && RagChatbot.lowEq c2 't' &&
        RagChatbot.lowEq c3 'e' && RagChatbot.lowEq c4 'm' then
      let w1 := (rest.takeWhile RagChatbot.isWS).length
      if w1 = 0 then none
      else
        let r1 := rest.drop w1
        let d := (r1.takeWhile RagChatbot.isDigitCh).length
        if d = 0 then none
        else
          let r2 := r1.drop d
          let opt : Nat × List Char :=
            match r2 with
            | a :: b :: r =>
              if RagChatbot.isAlphaAZ a && b = '.' then (2, r)
              else if a = '.' then (1, b :: r)
              else (0, [])
            | [a] => if a = '.' then (1, []) else (0, [])
            | [] => (0, [])
          if opt.1 = 0 then none
          else
            let w2 := (opt.2.takeWhile RagChatbot.isWS).length
            if w2 = 0 then none
            else
              let tl := ((opt.2.drop w2).takeWhile (fun c => c ≠ '\n')).length
              some (4 + w1 + d + opt.1 + w2 + tl)
    else none
  | _ => none

/-- `re.finditer` for the heading pattern: scan left to right, emit each
non-overlapping match as a `(start, length)` pair and resume after it.  The
fuel argument (`s.length` at the top call) only bounds the recursion: every
step consumes at least one character, so the list is exhausted first. -/
def finditerGo : Nat → List Char → Nat → List (Nat × Nat)
  | 0, _, _ => []
  | _, [], _ => []
  | fuel + 1, c :: t, pos =>
    match matchItemAt (c :: t) with
    | some len => (pos, len) :: finditerGo fuel (t.drop (len - 1)) (pos + len)
    | none => finditerGo fuel t (pos + 1)

def finditer (s : List Char) : List (Nat × Nat) := finditerGo s.length s 0

/-- One segment dict produced by `IngestionPipeline.segment_document`. -/
structure Seg where
  section_type : List Char
  text : List Char
  start_page : Nat
  end_page : Nat
deriving DecidableEq

/-- The loop over the regex matches in `segment_document`: text before the
current match (when any) becomes an "unknown" segment, the match start up to
the next match start (or the end of the text) becomes a segment labelled by
the stripped match text, and a trailing "unknown" segment is appended after
the last match when text remains. -/
def buildSegs (raw : List Char) (lastEnd : Nat) : List (Nat × Nat) → List Seg
  | [] =>
    if lastEnd < raw.length then
      [⟨"unknown".data, RagChatbot.pyStrip (RagChatbot.slice raw lastEnd raw.length), 0, 0⟩]
    else []
  | (s, len) :: rest =>
    let nextStart := match rest with | [] => raw.length | (s2, _) :: _ => s2
    let seg : Seg :=
      ⟨RagChatbot.pyStrip (RagChatbot.slice raw s (s + len)),
        RagChatbot.pyStrip (RagChatbot.slice raw s nextStart), 0, 0⟩
    let tail := buildSegs raw nextStart rest
    if lastEnd < s then
      ⟨"unknown".data, RagChatbot.pyStrip (RagChatbot.slice raw lastEnd s), 0, 0⟩ :: seg :: tail
    else seg :: tail

/-- `IngestionPipeline.segment_document`: for SEC filings, segment at the
heading-pattern matches; with no match, fall back to a fixed three-way split
at `len // 3`; other document types yield a single full-document segment.
Segments whose stripped text is empty are dropped. -/
def segment_document (raw : List Char) (doc_type : String) : List Seg :=
  let segs :=
    if doc_type = "10-K" || doc_type = "10-Q" then
      let ms := finditer raw
      if ms = [] then
        let n := raw.length / 3
        [⟨"part_1_business".data, RagChatbot.slice raw 0 n, 0, 0⟩,
          ⟨"part_2_financials".data, RagChatbot.slice raw n (2 * n), 0, 0⟩,
          ⟨"part_3_legal".data, raw.drop (2 * n), 0, 0⟩]
      else buildSegs raw 0 ms
    else [⟨"full_document".data, raw, 0, 0⟩]
  segs.filter (fun s => !(RagChatbot.pyStrip s.text).isEmpty)

/-- The pdf branch of `IngestionPipeline.parse_document`: the pdfminer call is
the primary strategy and the PyMuPDF call the secondary; each either throws
(`Except.error`) or returns extracted text.  The secondary runs only inside the
`except` handler of the primary; exhaustion of both returns `None`. -/
def parse_document_pdf (primary secondary : Except String String) : Option String :=
  match primary with
  | Except.ok t => some t
  | Except.error _ =>
    match secondary with
    | Except.ok t => some t
    | Except.error _ => none

end IngestionPipeline

namespace SimpleRAG

open RagChatbot

/-- Loop body of `SimpleRAG.chunk_document` (rag_query.py):
`for i in range(0, len(content), step): chunks.append(content[i:i+size]);
if i + size >= len(content): break`, for a positive step.  Structural fuel
(`content.length` suffices: every iteration advances `i` by `step ≥ 1`). -/
def chunkGo (content : List Char) (size step : Nat) : Nat → Nat → List (List Char)
  | _, 0 => []
  | i, fuel + 1 =>
    if i < content.length then
      let c := slice content i (i + size)
      if content.length ≤ i + size then [c]
      else c :: chunkGo content size step (i + step) fuel
    else []

/-- `SimpleRAG.chunk_document`: Python `range(0, n, step)` raises `ValueError`
when `step = 0` (overlap equal to the size) and is empty when `step < 0`
(overlap greater than the size); otherwise the sliding-window loop runs. -/
def chunk_document (content : List Char) (chunk_size overlap : Nat) :
    Except String (List (List Char)) :=
  let step : Int := (chunk_size : Int) - (overlap : Int)
  if step = 0 then Except.error "ValueError: range() arg 3 must not be zero"
  else if step < 0 then Except.ok []
  else Except.ok (chunkGo content chunk_size (chunk_size - overlap) 0 content.length)

end SimpleRAG

namespace DocumentRetriever

/-- State of a `DocumentRetriever` (src/nlp_llm_pipeline/retrieval.py):
`self.vectorstore` is `None` until an index is successfully built. -/
structure Retriever where
  vectorstore : Option (List String)
deriving DecidableEq

/-- A freshly constructed retriever: `self.vectorstore = None`. -/
def retriever_init : Retriever := ⟨none⟩

/-- `DocumentRetriever.create_index`: an empty document list returns at once
without touching `self.vectorstore`; otherwise `FAISS.from_documents` (the
external engine, parameter `ext`) either yields a store or throws, and a
thrown exception is caught leaving `self.vectorstore` unchanged. -/
def create_index (ext : List String → Option (List String))
    (documents : List String) (r : Retriever) : Retriever :=
  if documents = [] then r
  else
    match ext documents with
    | some vs => { vectorstore := some vs }
    | none => r

/-- `DocumentRetriever.retrieve_context`: with no vectorstore the result is
`[]`; otherwise `similarity_search` (external, parameter `search`, `none`
modelling a thrown exception) is consulted and exceptions yield `[]`. -/
def retrieve_context (search : List String → String → Nat → Option (List String))
    (r : Retriever) (query : String) (k : Nat) : List String :=
  match r.vectorstore with
  | none => []
  | some docs =>
    match search docs query k with
    | some res => res
    | none => []

end DocumentRetriever

namespace NLPLlmPipeline

/-- The extractor components owned by `NLPLlmPipeline`. -/
inductive Extractor
  | metric
  | sentiment
  | risk
  | summary
deriving DecidableEq

/-- External collaborators of `NLPLlmPipeline.process_document`: the
similarity search over the index built from the document, and the four
LLM-backed extractors. -/
structure LlmEnv where
  search : String → List String
  extract_metric : String → String → String
  analyze_sentiment : String → String
  identify_risks : String → String
  generate_summary : String → String

/-- The insight record assembled by `process_document` (time-, model- and
metadata-valued fields of the Python dict are omitted: wall-clock values are
not statable in the embedding and do not bear on any claim). -/
structure Insights where
  document_id : Option String
  extracted_metrics : List (String × String)
  sentiment : String
  risks : String
  summary : String
deriving DecidableEq

/-- Observable side effects of one `process_document` run: index builds,
extractor invocations in order (tagged with the query for the per-query
metric loop and with the document text for the whole-document extractors),
and logged prediction ids. -/
structure RunTrace where
  index_builds : List (List String)
  extractor_calls : List (Extractor × String)
  logged : List String
deriving DecidableEq

inductive PDResult
  | err (msg : String)
  | ok (ins : Insights)
deriving DecidableEq

/-- The default query list of `process_document`. -/
def defaultQueries : List String :=
  ["Total Revenue", "Net Income", "EPS", "Operating Margin", "Debt to Equity Ratio"]

/-- Python `sep.join(ts)`. -/
def joinStrs (sep : String) : List String → String
  | [] => ""
  | [s] => s
  | s :: t :: r => s ++ sep ++ joinStrs sep (t :: r)

/-- `NLPLlmPipeline.process_document` (src/nlp_llm_pipeline/pipeline.py):
empty text returns the error dict at once; otherwise the document is indexed,
each query is answered by `metric_extractor.extract_metric` on the retrieved
context (the full document when retrieval yields nothing), sentiment, risks
and summary are each computed once on the whole document, and the prediction
is logged when a document id was given. -/
def process_document (env : LlmEnv) (document_text : String)
    (document_id : Option String) (queries : Option (List String)) :
    PDResult × RunTrace :=
  if document_text = "" then
    (PDResult.err "Empty document text provided.", ⟨[], [], []⟩)
  else
    let qs := queries.getD defaultQueries
    let extracted := qs.map (fun q =>
      let ctx := env.search q
      let ctx := if ctx = [] then [document_text] else ctx
      (q, env.extract_metric (joinStrs " " ctx) q))
    let ins : Insights :=
      ⟨document_id, extracted, env.analyze_sentiment document_text,
        env.identify_risks document_text, env.generate_summary document_text⟩
    let calls :=
      qs.map (fun q => (Extractor.metric, q)) ++
        [(Extractor.sentiment, document_text), (Extractor.risk, document_text),
          (Extractor.summary, document_text)]
    let logged := match document_id with | some i => [i] | none => []
    (PDResult.ok ins, ⟨[[document_text]], calls, logged⟩)

/-- Modelled from the spec: the keyword classification the spec attributes to
the orchestrator (presence of "revenue"/"income"/"profit" gives the metric
extractor, "risk" the risk extractor, "summary"/"summarize" the summary
extractor, anything else the summary extractor).  Stated for comparison with
`process_document`; the matching code in the repository lives only in the
driver script rag_query_test.py, not in the orchestrator. -/
def spec_classify_query (q : String) : Extractor :=
  let l := q.data.map Char.toLower
  if RagChatbot.containsSub "revenue".data l || RagChatbot.containsSub "income".data l ||
      RagChatbot.containsSub "profit".data l then Extractor.metric
  else if RagChatbot.containsSub "risk".data l then Extractor.risk
  else if RagChatbot.containsSub "summary".data l ||
      RagChatbot.containsSub "summarize".data l then Extractor.summary
  else Extractor.summary

/-- A concrete environment with constant external collaborators, used to
evaluate `process_document` on closed inputs. -/
def env0 : LlmEnv :=
  ⟨fun _ => [], fun _ _ => "value", fun _ => "sent", fun _ => "risks", fun _ => "summ"⟩

end NLPLlmPipeline

namespace MonitoringMetrics

/-- The gold/prediction values handled by the exact-match path of
src/monitoring_feedback/metrics.py: `None` or a string.  (On such values the
binary-classification test `isinstance(x, (bool, int)) and x in (0, 1, True,
False)` is False, so the sklearn branch of `calculate_precision_recall` is
dead code and the exact-match branch below is the whole function.) -/
abbrev Val := Option String

/-- Precision/recall/f1 triple; exact rationals stand for the Python floats
(all arithmetic involved is exact). -/
structure PRMetrics where
  precision : ℚ
  recl : ℚ
  f1 : ℚ
deriving DecidableEq

structure AccMetrics where
  accuracy : ℚ
  precision : ℚ
  recl : ℚ
  f1 : ℚ
deriving DecidableEq

/-- `calculate_precision_recall` on string/None data: empty input yields
zeros; unequal lengths are trimmed to the shorter; true positives are the
equal non-None pairs; the two `ZeroDivisionError` paths (all-None gold makes
the recall denominator zero, no non-None prediction makes the precision
denominator zero) are caught by the `except` clause, which returns all-zero
metrics. -/
def calculate_precision_recall (gold_data predictions : List Val) : PRMetrics :=
  if gold_data = [] ∨ predictions = [] then ⟨0, 0, 0⟩
  else
    let m := min gold_data.length predictions.length
    let g := gold_data.take m
    let p := predictions.take m
    let tp := (g.zip p).countP (fun ab => ab.1 == ab.2 && ab.1 != none)
    if g.all (fun x => x == none) then ⟨0, 0, 0⟩
    else
      let npred := p.countP (fun x => x != none)
      if npred = 0 then ⟨0, 0, 0⟩
      else
        let ngold := g.countP (fun x => x != none)
        let prec : ℚ := (tp : ℚ) / (npred : ℚ)
        let recl : ℚ := (tp : ℚ) / (ngold : ℚ)
        let f1 : ℚ := if prec + recl = 0 then 0 else 2 * (prec * recl) / (prec + recl)
        ⟨prec, recl, f1⟩

/-- `calculate_accuracy_metrics`: empty input yields zeros; `correct` counts
the equal pairs of `zip(gold_standard, predictions)` (which silently stops at
the shorter list) while the accuracy denominator is `len(gold_standard)`;
precision/recall/f1 are delegated to `calculate_precision_recall`. -/
def calculate_accuracy_metrics (gold_standard predictions : List Val) : AccMetrics :=
  if gold_standard = [] ∨ predictions = [] then ⟨0, 0, 0, 0⟩
  else
    let correct := (gold_standard.zip predictions).countP (fun ab => ab.1 == ab.2)
    let accuracy : ℚ :=
      if 0 < gold_standard.length then (correct : ℚ) / (gold_standard.length : ℚ) else 0
    let pr := calculate_precision_recall gold_standard predictions
    ⟨accuracy, pr.precision, pr.recl, pr.f1⟩

/-- Modelled from the spec: "pairwise exact-match comparison truncated to the
shorter of the two lists", applied to the accuracy ratio — matches over the
truncated pairs divided by the shorter length.  Stated for comparison with
`calculate_accuracy_metrics`. -/
def spec_accuracy_over_shorter (gold predictions : List Val) : ℚ :=
  let m := min gold.length predictions.length
  let nmatches := ((gold.take m).zip (predictions.take m)).countP (fun ab => ab.1 == ab.2)
  if m = 0 then 0 else (nmatches : ℚ) / (m : ℚ)

end MonitoringMetrics

namespace IngestionPipeline

/-- The two-heading input of the end-to-end segmentation scenario. -/
def c2text : String :=
  "ITEM 1. BUSINESS\nThe company sells widgets worldwide.\nITEM 1A. RISK FACTORS\nMarkets are volatile."

end IngestionPipeline

/-- C10: with empty (falsy) document text, `process_document` returns only the
error dictionary and performs no other work: no index is built, no extractor
is invoked, and nothing is logged, for every environment, document id and
query list. -/
theorem C10_empty_document_early_return (env : NLPLlmPipeline.LlmEnv)
    (docId : Option String) (queries : Option (List String)) :
    NLPLlmPipeline.process_document env "" docId queries =
      (NLPLlmPipeline.PDResult.err "Empty document text provided.",
        { index_builds := [], extractor_calls := [], logged := [] }) := rfl

/-- C6: building the retrieval index from an empty chunk list is a no-op that
leaves the retriever state unchanged, and querying a never-built or
empty-built index returns `[]` for every query, `k` and external engine. -/
theorem C6_empty_index_queryable (ext : List String → Option (List String))
    (search : List String → String → Nat → Option (List String))
    (r : DocumentRetriever.Retriever) (q : String) (k : Nat) :
    DocumentRetriever.create_index ext [] r = r ∧
    DocumentRetriever.retrieve_context search DocumentRetriever.retriever_init q k = [] ∧
    DocumentRetriever.retrieve_context search
      (DocumentRetriever.create_index ext [] DocumentRetriever.retriever_init) q k = [] :=
  ⟨rfl, rfl, rfl⟩

/-- C5 counterexample: a primary PDF strategy returning empty text does NOT
trigger the secondary strategy — the empty text is returned as the parse
result, identical whether the secondary would succeed with recovered text or
fail, so the secondary is never consulted. -/
theorem C5_counterexample :
    IngestionPipeline.parse_document_pdf (Except.ok "") (Except.ok "recovered") = some "" ∧
    IngestionPipeline.parse_document_pdf (Except.ok "") (Except.error "pymupdf failed") = some "" ∧
    some "" ≠ some "recovered" :=
  ⟨rfl, rfl, by decide⟩

/-- C5 amended: the secondary PDF extraction strategy is applied exactly when
the primary throws; any text the primary returns — including empty text — is
the parse result, without consulting the secondary. -/
theorem C5_secondary_only_on_throw (t e : String) (sec : Except String String) :
    IngestionPipeline.parse_document_pdf (Except.ok t) sec = some t ∧
    IngestionPipeline.parse_document_pdf (Except.error e) sec =
      (match sec with | Except.ok t2 => some t2 | Except.error _ => none) :=
  ⟨rfl, rfl⟩

/-- C4 counterexample: with `overlap > size` the chunker silently returns an
empty chunk list, and with `overlap = size` it fails with Python's
`ValueError` from `range`, not with any `InvalidChunkConfig` error. -/
theorem C4_counterexample :
    SimpleRAG.chunk_document "abcdef".data 2 3 = Except.ok [] ∧
    SimpleRAG.chunk_document "abcdef".data 2 2 =
      Except.error "ValueError: range() arg 3 must not be zero" :=
  ⟨rfl, rfl⟩

/-- C4 amended: for every text and every `size ≤ overlap`, `chunk_document`
raises `ValueError` (from `range` with zero step) when `overlap = size`, and
silently returns an empty chunk list when `overlap > size`; no
`InvalidChunkConfig` fault exists in the code. -/
theorem C4_overlap_ge_size_behavior (content : List Char) (size overlap : Nat)
    (h : size ≤ overlap) :
    SimpleRAG.chunk_document content size overlap =
      (if size = overlap then Except.error "ValueError: range() arg 3 must not be zero"
        else Except.ok []) := by
  by_cases he : size = overlap
  · subst he
    simp [SimpleRAG.chunk_document]
  · have hlt : size < overlap := lt_of_le_of_ne h he
    have h1 : ¬ ((size : Int) - (overlap : Int) = 0) := by omega
    have h2 : (size : Int) - (overlap : Int) < 0 := by omega
    simp [SimpleRAG.chunk_document, h1, h2, he]

/-- C4 witness: a concrete run of the amended statement at `size 2, overlap 3`. -/
theorem C4_overlap_ge_size_behavior_witness :
    SimpleRAG.chunk_document "ab".data 2 3 = Except.ok [] := by
  have h := C4_overlap_ge_size_behavior "ab".data 2 3 (by decide)
  simpa using h

/-- C1 counterexample: the orchestrator's query loop sends a query containing
"risk" to the metric extractor (every per-query call is a metric-extractor
call), while the spec's keyword classification would send it to the risk
extractor. -/
theorem C1_counterexample :
    NLPLlmPipeline.spec_classify_query "What are the main risk factors?" =
      NLPLlmPipeline.Extractor.risk ∧
    (NLPLlmPipeline.process_document NLPLlmPipeline.env0 "Sample document text." none
        (some ["What are the main risk factors?"])).2.extractor_calls =
      [(NLPLlmPipeline.Extractor.metric, "What are the main risk factors?"),
        (NLPLlmPipeline.Extractor.sentiment, "Sample document text."),
        (NLPLlmPipeline.Extractor.risk, "Sample document text."),
        (NLPLlmPipeline.Extractor.summary, "Sample document text.")] ∧
    NLPLlmPipeline.Extractor.metric ≠ NLPLlmPipeline.Extractor.risk :=
  ⟨by decide, rfl, by decide⟩

/-- C1 amended: `process_document` performs no keyword classification — every
caller-supplied query is dispatched to the metric extractor, while the
sentiment, risk and summary extractors are each invoked exactly once per run
on the whole document text, independently of the queries. -/
theorem C1_every_query_to_metric_extractor (env : NLPLlmPipeline.LlmEnv)
    (text : String) (docId : Option String) (qs : List String) (ht : text ≠ "") :
    (NLPLlmPipeline.process_document env text docId (some qs)).2.extractor_calls =
      qs.map (fun q => (NLPLlmPipeline.Extractor.metric, q)) ++
        [(NLPLlmPipeline.Extractor.sentiment, text),
          (NLPLlmPipeline.Extractor.risk, text),
          (NLPLlmPipeline.Extractor.summary, text)] := by
  simp [NLPLlmPipeline.process_document, ht]

/-- C1 witness: the amended statement at a concrete environment and query. -/
theorem C1_every_query_to_metric_extractor_witness :
    (NLPLlmPipeline.process_document NLPLlmPipeline.env0 "doc" none
        (some ["Total Revenue"])).2.extractor_calls =
      [(NLPLlmPipeline.Extractor.metric, "Total Revenue"),
        (NLPLlmPipeline.Extractor.sentiment, "doc"),
        (NLPLlmPipeline.Extractor.risk, "doc"),
        (NLPLlmPipeline.Extractor.summary, "doc")] := by
  have h := C1_every_query_to_metric_extractor NLPLlmPipeline.env0 "doc" none
    ["Total Revenue"] (by decide)
  simpa using h

set_option maxRecDepth 4000 in
/-- C2 counterexample: on the two-heading input, segmentation yields the two
expected labels, but each segment's text does contain its heading line (here
the first segment's text has "ITEM 1. BUSINESS" as a substring), contradicting
"no heading line text". -/
theorem C2_counterexample :
    (IngestionPipeline.segment_document IngestionPipeline.c2text.data "10-K").map
        IngestionPipeline.Seg.text =
      ["ITEM 1. BUSINESS\nThe company sells widgets worldwide.".data,
        "ITEM 1A. RISK FACTORS\nMarkets are volatile.".data] ∧
    RagChatbot.containsSub "ITEM 1. BUSINESS".data
      "ITEM 1. BUSINESS\nThe company sells widgets worldwide.".data = true :=
  ⟨rfl, rfl⟩

set_option maxRecDepth 4000 in
/-- C2 amended: on the two-heading input (processed as a "10-K"), segmentation
yields exactly two segments labeled by the heading strings; each segment's
text contains its paragraph text and BEGINS with its heading line — a segment
runs from its heading match to the start of the next match. -/
theorem C2_segments_include_heading_lines :
    IngestionPipeline.segment_document IngestionPipeline.c2text.data "10-K" =
      [⟨"ITEM 1. BUSINESS".data,
          "ITEM 1. BUSINESS\nThe company sells widgets worldwide.".data, 0, 0⟩,
        ⟨"ITEM 1A. RISK FACTORS".data,
          "ITEM 1A. RISK FACTORS\nMarkets are volatile.".data, 0, 0⟩] := rfl

/-- C8: a 300-character document with no heading match (processed as a
"10-K", with each third non-blank so the empty-segment filter keeps it) is
segmented by the proportional fallback into exactly 3 segments whose texts
are the contiguous, non-overlapping character slices 0–100, 100–200 and
200–300 of the original text. -/
theorem C8_proportional_fallback (raw : List Char)
    (hm : IngestionPipeline.finditer raw = [])
    (hl : raw.length = 300)
    (h1 : RagChatbot.pyStrip (RagChatbot.slice raw 0 100) ≠ [])
    (h2 : RagChatbot.pyStrip (RagChatbot.slice raw 100 200) ≠ [])
    (h3 : RagChatbot.pyStrip (RagChatbot.slice raw 200 300) ≠ []) :
    IngestionPipeline.segment_document raw "10-K" =
      [⟨"part_1_business".data, RagChatbot.slice raw 0 100, 0, 0⟩,
        ⟨"part_2_financials".data, RagChatbot.slice raw 100 200, 0, 0⟩,
        ⟨"part_3_legal".data, RagChatbot.slice raw 200 300, 0, 0⟩] := by
  have hdrop : raw.drop 200 = RagChatbot.slice raw 200 300 := by
    unfold RagChatbot.slice
    rw [← hl, List.take_length]
  simp only [IngestionPipeline.segment_document, hm, hl]
  norm_num [hdrop]
  simp [List.filter, List.isEmpty_iff, h1, h2, h3]

set_option maxRecDepth 8000 in
/-- C8 witness: the fallback on a concrete 300-character headingless text. -/
theorem C8_proportional_fallback_witness :
    IngestionPipeline.segment_document (List.replicate 300 'a') "10-K" =
      [⟨"part_1_business".data, RagChatbot.slice (List.replicate 300 'a') 0 100, 0, 0⟩,
        ⟨"part_2_financials".data, RagChatbot.slice (List.replicate 300 'a') 100 200, 0, 0⟩,
        ⟨"part_3_legal".data, RagChatbot.slice (List.replicate 300 'a') 200 300, 0, 0⟩] :=
  C8_proportional_fallback (List.replicate 300 'a') (by decide) (by decide)
    (by decide) (by decide) (by decide)

/-- C7 counterexample: with gold longer than predictions, the accuracy ratio
divides by the full gold length (here 1 match / 2 gold entries = 1/2), not by
the shorter list's length (which would give 1/1 = 1). -/
theorem C7_counterexample :
    (MonitoringMetrics.calculate_accuracy_metrics [some "a", some "b"] [some "a"]).accuracy
        = 1 / 2 ∧
    MonitoringMetrics.spec_accuracy_over_shorter [some "a", some "b"] [some "a"] = 1 ∧
    (1 : ℚ) / 2 ≠ 1 := by
  refine ⟨?_, ?_, by norm_num⟩
  · norm_num [MonitoringMetrics.calculate_accuracy_metrics]
    rw [if_neg (by simp)]
  · norm_num [MonitoringMetrics.spec_accuracy_over_shorter]

/-- C7 amended: for non-empty unequal-length inputs, precision/recall/f1 are
computed over the two lists truncated to the shorter length, but the accuracy
ratio counts matches over the zipped (shorter) pairs while dividing by the
FULL gold list length. -/
theorem C7_accuracy_denominator_full_gold (g p : List MonitoringMetrics.Val)
    (hg : g ≠ []) (hp : p ≠ []) :
    (MonitoringMetrics.calculate_accuracy_metrics g p).accuracy =
      (((g.zip p).countP (fun ab => ab.1 == ab.2) : ℚ)) / (g.length : ℚ) ∧
    MonitoringMetrics.calculate_precision_recall g p =
      MonitoringMetrics.calculate_precision_recall
        (g.take (min g.length p.length)) (p.take (min g.length p.length)) := by
  have hgl : 0 < g.length := List.length_pos.mpr hg
  have hpl : 0 < p.length := List.length_pos.mpr hp
  constructor
  · simp [MonitoringMetrics.calculate_accuracy_metrics, hg, hp, hgl]
  · have h1 : (g.take (min g.length p.length)).length = min g.length p.length := by
      rw [List.length_take]; omega
    have h2 : (p.take (min g.length p.length)).length = min g.length p.length := by
      rw [List.length_take]; omega
    have hg' : g.take (min g.length p.length) ≠ [] :=
      List.ne_nil_of_length_pos (by rw [List.length_take]; omega)
    have hp' : p.take (min g.length p.length) ≠ [] :=
      List.ne_nil_of_length_pos (by rw [List.length_take]; omega)
    have e1 : (g.take (min g.length p.length)).take
        (min (g.take (min g.length p.length)).length (p.take (min g.length p.length)).length) =
        g.take (min g.length p.length) := by
      rw [h1, h2, min_self, List.take_take, min_self]
    have e2 : (p.take (min g.length p.length)).take
        (min (g.take (min g.length p.length)).length (p.take (min g.length p.length)).length) =
        p.take (min g.length p.length) := by
      rw [h1, h2, min_self, List.take_take, min_self]
    simp only [MonitoringMetrics.calculate_precision_recall,
      if_neg (show ¬(g = [] ∨ p = []) by simp [hg, hp]),
      if_neg (show ¬(g.take (min g.length p.length) = [] ∨
        p.take (min g.length p.length) = []) by simp [hg', hp']), e1, e2]

/-- C7 witness: the amended statement evaluated at concrete unequal-length
lists. -/
theorem C7_accuracy_denominator_full_gold_witness :
    (MonitoringMetrics.calculate_accuracy_metrics [some "a", some "b"] [some "a"]).accuracy
      = 1 / 2 ∧
    MonitoringMetrics.calculate_precision_recall [some "a", some "b"] [some "a"] =
      MonitoringMetrics.calculate_precision_recall [some "a"] [some "a"] := by
  have h := C7_accuracy_denominator_full_gold [some "a", some "b"] [some "a"]
    (by decide) (by decide)
  refine ⟨?_, ?_⟩
  · rw [h.1]; norm_num
  · have h2 := h.2
    simpa using h2

namespace RagChatbot

theorem subRunsGo_cons_neg {p : Char → Bool} {r c : Char} {l : List Char}
    (hc : p c = false) (b : Bool) :
    subRunsGo p r b (c :: l) = c :: subRunsGo p r false l := by
  cases b <;> simp [subRunsGo, hc]

theorem mem_subRunsGo {p : Char → Bool} {r : Char} :
    ∀ {l : List Char} {b : Bool} {c : Char}, c ∈ subRunsGo p r b l → c = r ∨ p c = false := by
  intro l
  induction l with
  | nil => intro b c h; simp [subRunsGo] at h
  | cons d t ih =>
    intro b c h
    by_cases hd : p d = true
    · cases b
      · simp only [subRunsGo, hd, if_true, Bool.false_eq_true, if_false, List.mem_cons] at h
        rcases h with h | h
        · exact Or.inl h
        · exact ih h
      · simp only [subRunsGo, hd, if_true] at h
        exact ih h
    · rw [subRunsGo_cons_neg (Bool.not_eq_true _ ▸ hd) b] at h
      rcases List.mem_cons.mp h with h | h
      · subst h; exact Or.inr (Bool.not_eq_true _ ▸ hd)
      · exact ih h

theorem subRunsGo_eq_self {p : Char → Bool} {r : Char} :
    ∀ {l : List Char} {b : Bool}, (∀ c ∈ l, p c = false) → subRunsGo p r b l = l := by
  intro l
  induction l with
  | nil => intro b _; rfl
  | cons d t ih =>
    intro b h
    have hd : p d = false := h d (List.mem_cons_self d t)
    rw [subRunsGo_cons_neg hd b]
    exact congrArg (d :: ·) (ih (fun c hc => h c (List.mem_cons_of_mem d hc)))

theorem subRunsGo_idem {p : Char → Bool} {r : Char} (hp : p r = true) :
    ∀ (l : List Char) (b : Bool),
      subRunsGo p r b (subRunsGo p r b l) = subRunsGo p r b l := by
  intro l
  induction l with
  | nil => intro b; rfl
  | cons d t ih =>
    intro b
    by_cases hd : p d = true
    · cases b
      · simp only [subRunsGo, hd, if_true, Bool.false_eq_true, if_false]
        rw [if_pos hp]
        exact congrArg (r :: ·) (ih true)
      · simp only [subRunsGo, hd, if_true]
        exact ih true
    · have hd' : p d = false := Bool.not_eq_true _ ▸ hd
      rw [subRunsGo_cons_neg hd' b, subRunsGo_cons_neg hd' b]
      exact congrArg (d :: ·) (ih false)

end RagChatbot

namespace RagChatbot

theorem subRunsGo_append_last {p : Char → Bool} {r c : Char} (hc : p c = false) :
    ∀ (l : List Char) (b : Bool), ∃ t, subRunsGo p r b (l ++ [c]) = t ++ [c] := by
  intro l
  induction l with
  | nil =>
    intro b
    refine ⟨[], ?_⟩
    rw [List.nil_append, subRunsGo_cons_neg hc b]
    rfl
  | cons d t ih =>
    intro b
    by_cases hd : p d = true
    · cases b
      · obtain ⟨u, hu⟩ := ih true
        exact ⟨r :: u, by simp [subRunsGo, hd, hu]⟩
      · obtain ⟨u, hu⟩ := ih true
        exact ⟨u, by simp [subRunsGo, hd, hu]⟩
    · have hd' : p d = false := Bool.not_eq_true _ ▸ hd
      obtain ⟨u, hu⟩ := ih false
      refine ⟨d :: u, ?_⟩
      rw [List.cons_append, subRunsGo_cons_neg hd' b, hu]
      rfl

theorem rstrip_append_nonws {c : Char} (hc : isWS c = false) :
    ∀ t : List Char, rstrip (t ++ [c]) = t ++ [c] := by
  intro t
  induction t with
  | nil => simp [rstrip, hc]
  | cons d t' ih =>
    rw [List.cons_append]
    simp only [rstrip, ih]
    simp

theorem rstrip_shape :
    ∀ l : List Char, rstrip l = [] ∨ ∃ t c, rstrip l = t ++ [c] ∧ isWS c = false := by
  intro l
  induction l with
  | nil => exact Or.inl rfl
  | cons d t ih =>
    rcases ih with h | ⟨u, c, hu, hc⟩
    · by_cases hd : isWS d = true
      · exact Or.inl (by simp [rstrip, h, hd])
      · refine Or.inr ⟨[], d, ?_, Bool.not_eq_true _ ▸ hd⟩
        simp [rstrip, h, hd]
    · refine Or.inr ⟨d :: u, c, ?_, hc⟩
      have hne : rstrip t ≠ [] := by
        rw [hu]; simp
      simp only [rstrip, hu]
      simp [hne, hu]

theorem rstrip_cons_shape (c : Char) (l : List Char) :
    rstrip (c :: l) = [] ∨ ∃ m, rstrip (c :: l) = c :: m := by
  by_cases h : rstrip l = [] ∧ isWS c = true
  · exact Or.inl (by simp [rstrip, h.1, h.2])
  · refine Or.inr ⟨rstrip l, ?_⟩
    simp only [rstrip]
    rcases Decidable.not_and_iff_or_not.mp h with h1 | h2
    · simp [h1]
    · simp [Bool.not_eq_true _ ▸ h2]

theorem dropWhile_head_shape :
    ∀ l : List Char, l.dropWhile isWS = [] ∨
      ∃ c m, l.dropWhile isWS = c :: m ∧ isWS c = false := by
  intro l
  induction l with
  | nil => exact Or.inl rfl
  | cons d t ih =>
    by_cases hd : isWS d = true
    · rw [List.dropWhile_cons_of_pos hd]
      exact ih
    · refine Or.inr ⟨d, t, ?_, Bool.not_eq_true _ ▸ hd⟩
      exact List.dropWhile_cons_of_neg hd

theorem pyStrip_shape (l : List Char) :
    pyStrip l = [] ∨
      ((∃ c m, pyStrip l = c :: m ∧ isWS c = false) ∧
        (∃ t c', pyStrip l = t ++ [c'] ∧ isWS c' = false)) := by
  rcases dropWhile_head_shape l with h | ⟨c, m, hm, hc⟩
  · exact Or.inl (by simp [pyStrip, h, rstrip])
  · unfold pyStrip
    rw [hm]
    rcases rstrip_cons_shape c m with h1 | ⟨m', hm'⟩
    · exact Or.inl h1
    · rcases rstrip_shape (c :: m) with h2 | ⟨u, c', hu, hc'⟩
      · exact Or.inl h2
      · exact Or.inr ⟨⟨c, m', hm', hc⟩, ⟨u, c', hu, hc'⟩⟩

theorem pyStrip_eq_self_of {c c' : Char} {m t : List Char} (hc : isWS c = false)
    (hc' : isWS c' = false) (hv : c :: m = t ++ [c']) : pyStrip (c :: m) = c :: m := by
  unfold pyStrip
  rw [List.dropWhile_cons_of_neg (by simp [hc]), hv, rstrip_append_nonws hc']

end RagChatbot

namespace RagChatbot

theorem isNL_eq_false_of_isWS {c : Char} (h : isWS c = false) : isNL c = false := by
  cases hn : isNL c
  · rfl
  · exfalso
    have : c = '\n' := by simpa [isNL] using hn
    subst this
    simp [isWS] at h

theorem mem_ingest_clean {s : List Char} {c : Char}
    (h : c ∈ IngestionPipeline.clean_text s) : c = ' ' ∨ isWS c = false := by
  unfold IngestionPipeline.clean_text at h
  by_cases hs : s = []
  · simp [hs] at h
  · rw [if_neg hs] at h
    exact mem_subRunsGo h

theorem ingest_clean_idem (s : List Char) :
    IngestionPipeline.clean_text (IngestionPipeline.clean_text s) =
      IngestionPipeline.clean_text s := by
  by_cases hs : s = []
  · simp [IngestionPipeline.clean_text, hs]
  · have hstep : ∀ x : List Char, x ≠ [] →
        IngestionPipeline.clean_text x = subRuns isWS ' ' (subRuns isNL '\n' (pyStrip x)) :=
      fun x hx => by simp [IngestionPipeline.clean_text, hx]
    have hcs : IngestionPipeline.clean_text s =
        subRuns isWS ' ' (subRuns isNL '\n' (pyStrip s)) := hstep s hs
    by_cases hv : IngestionPipeline.clean_text s = []
    · rw [hv]
      simp [IngestionPipeline.clean_text]
    · rcases pyStrip_shape s with hu | ⟨⟨c, m, hm, hc⟩, ⟨t, c', ht, hc'⟩⟩
      · exfalso
        apply hv
        rw [hcs, hu]
        rfl
      · -- head and last of the cleaned text are non-whitespace characters
        have hnl_c : isNL c = false := isNL_eq_false_of_isWS hc
        have hnl_c' : isNL c' = false := isNL_eq_false_of_isWS hc'
        -- the cleaned text ends in c'
        obtain ⟨t1, ht1⟩ := subRunsGo_append_last (p := isNL) (r := '\n') hnl_c' t false
        obtain ⟨t2, ht2⟩ := subRunsGo_append_last (p := isWS) (r := ' ') hc' t1 false
        have hlast : IngestionPipeline.clean_text s = t2 ++ [c'] := by
          rw [hcs]
          unfold subRuns
          rw [ht, ht1, ht2]
        -- the cleaned text starts with c
        have hhead : ∃ y, IngestionPipeline.clean_text s = c :: y := by
          rw [hcs]
          unfold subRuns
          rw [hm, subRunsGo_cons_neg hnl_c false, subRunsGo_cons_neg hc false]
          exact ⟨_, rfl⟩
        obtain ⟨y, hy⟩ := hhead
        -- strip is the identity on the cleaned text
        have hstrip : pyStrip (IngestionPipeline.clean_text s) =
            IngestionPipeline.clean_text s := by
          rw [hy]
          exact hy ▸ pyStrip_eq_self_of hc hc' (hy ▸ hlast)
        -- the newline collapse is the identity on the cleaned text
        have hnlid : subRuns isNL '\n' (IngestionPipeline.clean_text s) =
            IngestionPipeline.clean_text s := by
          apply subRunsGo_eq_self
          intro d hd
          rcases mem_ingest_clean hd with h1 | h2
          · subst h1; rfl
          · exact isNL_eq_false_of_isWS h2
        -- the whitespace collapse is idempotent
        have hwsid : subRuns isWS ' ' (IngestionPipeline.clean_text s) =
            IngestionPipeline.clean_text s := by
          rw [hcs]
          exact subRunsGo_idem (by rfl) (subRuns isNL '\n' (pyStrip s)) false
        calc IngestionPipeline.clean_text (IngestionPipeline.clean_text s)
            = subRuns isWS ' ' (subRuns isNL '\n' (pyStrip (IngestionPipeline.clean_text s))) :=
              hstep (IngestionPipeline.clean_text s) hv
          _ = IngestionPipeline.clean_text s := by rw [hstrip, hnlid, hwsid]

end RagChatbot

namespace RagChatbot

theorem splitGo_tokens :
    ∀ (l acc : List Char), (∀ c ∈ acc, isWS c = false) →
      ∀ t ∈ splitGo acc l, t ≠ [] ∧ ∀ c ∈ t, isWS c = false := by
  intro l
  induction l with
  | nil =>
    intro acc hacc t ht
    by_cases ha : acc = []
    · simp [splitGo, ha] at ht
    · simp only [splitGo, if_neg ha, List.mem_singleton] at ht
      subst ht
      refine ⟨by simpa using ha, ?_⟩
      intro c hc
      exact hacc c (List.mem_reverse.mp hc)
  | cons d l' ih =>
    intro acc hacc t ht
    by_cases hd : isWS d = true
    · by_cases ha : acc = []
      · rw [splitGo, if_pos hd, if_pos ha] at ht
        exact ih [] (by simp) t ht
      · rw [splitGo, if_pos hd, if_neg ha] at ht
        rcases List.mem_cons.mp ht with h | h
        · subst h
          refine ⟨by simpa using ha, ?_⟩
          intro c hc
          exact hacc c (List.mem_reverse.mp hc)
        · exact ih [] (by simp) t h
    · rw [splitGo, if_neg hd] at ht
      refine ih (d :: acc) ?_ t ht
      intro c hc
      rcases List.mem_cons.mp hc with h | h
      · subst h; exact Bool.not_eq_true _ ▸ hd
      · exact hacc c h

theorem splitGo_token_prefix :
    ∀ (t : List Char), (∀ c ∈ t, isWS c = false) →
      ∀ (l acc : List Char), splitGo acc (t ++ l) = splitGo (t.reverse ++ acc) l := by
  intro t
  induction t with
  | nil => intro _ l acc; simp
  | cons d t' ih =>
    intro ht l acc
    have hd : isWS d = false := ht d (List.mem_cons_self d t')
    rw [List.cons_append, splitGo, if_neg (by simp [hd])]
    rw [ih (fun c hc => ht c (List.mem_cons_of_mem d hc)) l (d :: acc)]
    simp

theorem pySplit_joinSp :
    ∀ ts : List (List Char),
      (∀ t ∈ ts, t ≠ [] ∧ ∀ c ∈ t, isWS c = false) → pySplit (joinSp ts) = ts := by
  intro ts
  induction ts with
  | nil => intro _; rfl
  | cons t ts' ih =>
    intro h
    obtain ⟨htne, htws⟩ := h t (List.mem_cons_self t ts')
    have hrevne : t.reverse ≠ [] := by simpa using htne
    cases ts' with
    | nil =>
      show splitGo [] (joinSp [t]) = [t]
      rw [joinSp, ← List.append_nil t, splitGo_token_prefix t htws [] []]
      rw [List.append_nil, List.append_nil]
      rw [splitGo, if_neg hrevne, List.reverse_reverse]
    | cons u ts'' =>
      show splitGo [] (joinSp (t :: u :: ts'')) = t :: u :: ts''
      rw [joinSp, splitGo_token_prefix t htws (' ' :: joinSp (u :: ts'')) []]
      rw [List.append_nil]
      rw [splitGo, if_pos (by rfl : isWS ' ' = true), if_neg hrevne, List.reverse_reverse]
      exact congrArg (t :: ·) (ih (fun v hv => h v (List.mem_cons_of_mem t hv)))

theorem dp_clean_idem (x : List Char) :
    DocumentProcessor.clean_text (DocumentProcessor.clean_text x) =
      DocumentProcessor.clean_text x := by
  by_cases hx : x = []
  · simp [DocumentProcessor.clean_text, hx]
  · have hstep2 : ∀ y : List Char, y ≠ [] →
        DocumentProcessor.clean_text y = joinSp ((pySplit y).filter (fun w => !w.isEmpty)) :=
      fun y hy => by simp [DocumentProcessor.clean_text, hy]
    have hv : DocumentProcessor.clean_text x =
        joinSp ((pySplit x).filter (fun w => !w.isEmpty)) := hstep2 x hx
    by_cases hvnil : DocumentProcessor.clean_text x = []
    · rw [hvnil]
      simp [DocumentProcessor.clean_text]
    · have hT : ∀ t ∈ (pySplit x).filter (fun w => !w.isEmpty),
          t ≠ [] ∧ ∀ c ∈ t, isWS c = false := by
        intro t ht
        exact splitGo_tokens x [] (by simp) t (List.mem_of_mem_filter ht)
      have hsplit : pySplit (DocumentProcessor.clean_text x) =
          (pySplit x).filter (fun w => !w.isEmpty) := by
        rw [hv]
        exact pySplit_joinSp _ hT
      have hfilter : ((pySplit x).filter (fun w => !w.isEmpty)).filter
          (fun w => !w.isEmpty) = (pySplit x).filter (fun w => !w.isEmpty) := by
        apply List.filter_eq_self.mpr
        intro a ha
        have := (hT a ha).1
        simpa using this
      calc DocumentProcessor.clean_text (DocumentProcessor.clean_text x)
          = joinSp ((pySplit (DocumentProcessor.clean_text x)).filter
              (fun w => !w.isEmpty)) := hstep2 (DocumentProcessor.clean_text x) hvnil
        _ = DocumentProcessor.clean_text x := by
            rw [hsplit, hfilter, ← hv]

end RagChatbot

/-- C9: both normalization profiles are idempotent — for every text `x`,
`clean_text (clean_text x) = clean_text x` holds for the default profile of
`DocumentProcessor` and for the ingestion-stage profile of
`IngestionPipeline` alike. -/
theorem C9_normalize_idempotent (x : List Char) :
    DocumentProcessor.clean_text (DocumentProcessor.clean_text x) =
        DocumentProcessor.clean_text x ∧
    IngestionPipeline.clean_text (IngestionPipeline.clean_text x) =
        IngestionPipeline.clean_text x :=
  ⟨RagChatbot.dp_clean_idem x, RagChatbot.ingest_clean_idem x⟩

/-- C3 counterexample: the ingestion profile maps "a\nb" to "a b" — the
newline between the two lines is replaced by a space, so a newline present in
the input does not separate the corresponding lines in the output. -/
theorem C3_counterexample :
    IngestionPipeline.clean_text "a\nb".data = "a b".data ∧
    '\n' ∈ "a\nb".data ∧ '\n' ∉ "a b".data := by
  refine ⟨by decide, by decide, by decide⟩

/-- C3 amended: the ingestion profile collapses newline runs to one newline
but its final substitution collapses EVERY whitespace run — newlines
included — to a single space: every character of the output is either a
space or a non-whitespace character, so the output contains no newline and
the newline/paragraph structure is not preserved. -/
theorem C3_clean_text_no_newline_structure (s : List Char) (c : Char)
    (hc : c ∈ IngestionPipeline.clean_text s) : c = ' ' ∨ RagChatbot.isWS c = false :=
  RagChatbot.mem_ingest_clean hc

/-- C3 witness: the amended statement applied at a concrete input shows no
newline survives cleaning. -/
theorem C3_clean_text_no_newline_structure_witness :
    '\n' ∉ IngestionPipeline.clean_text "a\nb".data := by
  intro h
  rcases C3_clean_text_no_newline_structure "a\nb".data '\n' h with h1 | h2
  · exact absurd h1 (by decide)
  · exact absurd h2 (by decide)
